import Mathlib

/-!
Verification development for the snapshot-reconciliation scripts
(`process_all_data_complete.py`, `process_association_changes.py`,
`process_contacts.py`).

Python strings are embedded as `List Char`; pandas cells that may be NA are
embedded as `Option (List Char)` (or `Option Int` for numeric columns), with
`none` standing for NaN / missing.  Python's `str.strip` is modelled with
`Char.isWhitespace` (covering space, tab, CR, LF; the exotic Unicode
whitespace Python also strips never occurs in the data handled here), and
`str.lower` with `Char.toLower`.
-/

/-- Coerce a Lean string literal to the `List Char` representation used
throughout this development. -/
def s2l (s : String) : List Char := s.data

/-- Leading-whitespace strip (the front half of Python `str.strip()`). -/
def stripLeading (l : List Char) : List Char := l.dropWhile Char.isWhitespace

/-- Trailing-whitespace strip (the back half of Python `str.strip()`). -/
def stripTrailing (l : List Char) : List Char :=
  (l.reverse.dropWhile Char.isWhitespace).reverse

/-- Python `str.strip()`. -/
def pyStrip (l : List Char) : List Char := stripTrailing (stripLeading l)

/-- Python `str.lower()` (ASCII, which is all the data contains). -/
def pyLower (l : List Char) : List Char := l.map Char.toLower

/-- Python `s.split(';')`: e.g. `"" ↦ [""]`, `";" ↦ ["", ""]`. -/
def splitSemi : List Char → List (List Char)
  | [] => [[]]
  | c :: rest =>
    let r := splitSemi rest
    if c = ';' then [] :: r
    else
      match r with
      | [] => [[c]]
      | h :: t => (c :: h) :: t

/-- Value of a digit string read in base 10. -/
def digitsToNat (l : List Char) : Nat :=
  l.foldl (fun n c => n * 10 + (c.toNat - 48)) 0

/-- Python `int(str)`: optional surrounding whitespace, optional sign, one or
more decimal digits; anything else (including `"3.5"`) raises, modelled as
`none`.  (Digit-group underscores are not modelled; they do not occur in the
data.) -/
def pyIntStrict (s : List Char) : Option Int :=
  let t := pyStrip s
  match t with
  | '-' :: ds =>
    if ds ≠ [] ∧ ds.all Char.isDigit then some (-(digitsToNat ds : Int)) else none
  | '+' :: ds =>
    if ds ≠ [] ∧ ds.all Char.isDigit then some (digitsToNat ds : Int) else none
  | ds =>
    if ds ≠ [] ∧ ds.all Char.isDigit then some (digitsToNat ds : Int) else none

/-- Python `int(float(str))` (also `pd.to_numeric(..).astype(int)`): parse a
decimal literal — optional surrounding whitespace, optional sign, digits with
an optional fractional part — and truncate toward zero.  Non-numeric input
(which raises a `ValueError` all call sites catch, or becomes NaN under
`errors='coerce'` and is dropped) is `none`.  Exponent/`inf`/`nan` literals
are not modelled; they do not occur in the identifier columns involved. -/
def pyIntOfFloatStr (s : List Char) : Option Int :=
  let t := pyStrip s
  let signed : Bool × List Char :=
    match t with
    | '-' :: r => (true, r)
    | '+' :: r => (false, r)
    | r => (false, r)
  let u := signed.2
  let intPart := u.takeWhile Char.isDigit
  let rest := u.dropWhile Char.isDigit
  let valid : Bool :=
    match rest with
    | [] => !intPart.isEmpty
    | '.' :: fr => (!intPart.isEmpty || !fr.isEmpty) && fr.all Char.isDigit
    | _ => false
  if valid then
    some (if signed.1 then -(digitsToNat intPart : Int) else (digitsToNat intPart : Int))
  else none

/-- Python `str(n)` for an integer value (used when formatted integer columns are
re-rendered as strings). -/
def intStr (n : Int) : List Char := (toString n).data

/-- The regex replacement `\.0$ → ""` used on numeric-like comparison fields:
remove one trailing `".0"` if present. -/
def stripDot0 (s : List Char) : List Char :=
  match s.reverse with
  | '0' :: '.' :: rest => rest.reverse
  | _ => s

/-- Layout used by `format_phone_number` for ten digits: `(123) 456-7890`
(`process_all_data_complete.py` lines 32-35). -/
def fmt10 (d : List Char) : List Char :=
  '(' :: d.take 3 ++ ')' :: ' ' :: ((d.drop 3).take 3) ++ '-' :: d.drop 6

/-- Embedding of `format_phone_number` (`process_all_data_complete.py` lines 23-37).  The
`pd.isna(phone) or phone == ''` guard coincides with the stripped-empty check
once cells are embedded as strings. -/
def format_phone_number (phone : List Char) : List Char :=
  if pyStrip phone = [] then []
  else if (phone.filter Char.isDigit).length = 10 then
    fmt10 (phone.filter Char.isDigit)
  else if (phone.filter Char.isDigit).length = 11 ∧
      (phone.filter Char.isDigit).head? = some '1' then
    fmt10 ((phone.filter Char.isDigit).drop 1)
  else pyStrip phone

/-- Embedding of `format_zip_code` (`process_all_data_complete.py` lines 39-51): keep the
digits, truncate to five or left-pad with zeros. -/
def format_zip_code (zip_code : List Char) : List Char :=
  if zip_code = [] then []
  else if 5 ≤ (zip_code.filter Char.isDigit).length then
    (zip_code.filter Char.isDigit).take 5
  else
    List.replicate (5 - (zip_code.filter Char.isDigit).length) '0' ++
      zip_code.filter Char.isDigit

example : format_phone_number (s2l "123-456-7890") = s2l "(123) 456-7890" := by decide
example : format_phone_number (s2l "11234567890") = s2l "(123) 456-7890" := by decide
example : format_phone_number (s2l "  555-HELP ") = s2l "555-HELP" := by decide
example : format_zip_code (s2l "6016.0") = s2l "60160" := by decide
example : format_zip_code (s2l "12") = s2l "00012" := by decide
example : stripDot0 (s2l "120.0") = s2l "120" := by decide
example : stripDot0 (s2l "1.0.0") = s2l "1.0" := by decide
example : pyIntOfFloatStr (s2l " 123.5 ") = some 123 := by decide
example : pyIntOfFloatStr (s2l "abc") = none := by decide
example : pyIntStrict (s2l "123") = some 123 := by decide
example : pyIntStrict (s2l "3.5") = none := by decide
example : splitSemi (s2l "a;;b") = [s2l "a", [], s2l "b"] := by decide

/-!
## Change Detector — `detect_changes_in_existing_records`
(`process_all_data_complete.py` lines 401-491)

A matched record under comparison is embedded field by field: the
`_new` (source) and `_hubspot` (destination) value of each compared field,
with `none` for a NaN / absent value (a left-merge miss leaves the whole
destination side NaN).  Lines 444-459 normalize both sides the same way:
`fillna('')`, `astype(str)`, `str.strip()`, replace the exact values
`'nan'` / `'None'` by `''`, and for the four numeric-like fields drop one
trailing `".0"`.
-/

/-- One compared field of a matched record: name, source-side (`_new`) value,
destination-side (`_hubspot`) value. -/
structure FieldCmp where
  name : List Char
  srcVal : Option (List Char)
  dstVal : Option (List Char)
deriving DecidableEq, Repr

/-- The numeric-like comparison fields of line 453. -/
def numeric_comparison_fields : List (List Char) :=
  [s2l "Zip Code", s2l "Total Beds", s2l "NPI", s2l "CCN"]

/-- Whether a field gets the trailing-`".0"` treatment (line 453). -/
def isNumericField (name : List Char) : Bool :=
  numeric_comparison_fields.contains name

/-- Normalization `fillna('').astype(str).str.strip()` followed by the exact-value
replacement of `'nan'` and `'None'` by `''` (lines 445-450). -/
def normalizeCell (v : Option (List Char)) : List Char :=
  let s := pyStrip (v.getD [])
  if s = s2l "nan" ∨ s = s2l "None" then [] else s

/-- The full comparison normalization of one side of a field
(lines 444-455). -/
def compNormFor (name : List Char) (v : Option (List Char)) : List Char :=
  if isNumericField name then stripDot0 (normalizeCell v) else normalizeCell v

/-- Whether one field contributes to the change mask (line 458). -/
def fieldChangedB (f : FieldCmp) : Bool :=
  decide (compNormFor f.name f.srcVal ≠ compNormFor f.name f.dstVal)

/-- Classification of a matched record. -/
inductive ChangeClass where
  | update
  | unchanged
deriving DecidableEq, Repr

/-- Row-level classification: the per-field change masks are OR-ed
(line 459) and only rows with some change are kept as updates
(lines 461-464). -/
def classify (rec : List FieldCmp) : ChangeClass :=
  if rec.any fieldChangedB then ChangeClass.update else ChangeClass.unchanged

/-- The changed fields of a record (the fields whose mask is set). -/
def changedFields (rec : List FieldCmp) : List (List Char) :=
  (rec.filter fieldChangedB).map (fun f => f.name)

/-- Applying an emitted update to the destination: every compared field's
destination value becomes the source value.  Records not classified
`update` are untouched. -/
def applyUpdate (rec : List FieldCmp) : List FieldCmp :=
  if classify rec = ChangeClass.update then
    rec.map (fun f => { f with dstVal := f.srcVal })
  else rec

example :
    classify [⟨s2l "Total Beds", some (s2l "130"), some (s2l "120")⟩] =
      ChangeClass.update := by decide
example :
    classify [⟨s2l "Total Beds", some (s2l "120.0"), some (s2l "120")⟩] =
      ChangeClass.unchanged := by decide

/-!
## Identity Resolver
(`process_contacts.py` lines 71-142, `process_all_data_complete.py`
lines 281-399)

Python `dict` assignment overwrites the value stored for an existing key, so
the embedded dictionary keeps at most one entry per key and an insert for a
present key replaces its value.  `dget` is both `k in d` and `d[k]`.
-/

/-- Insert-or-overwrite, the semantics of `d[k] = v` on a Python dict. -/
def dinsert {κ : Type} [DecidableEq κ] (d : List (κ × List Char)) (k : κ)
    (v : List Char) : List (κ × List Char) :=
  d.filter (fun p => decide (p.1 ≠ k)) ++ [(k, v)]

/-- Dictionary lookup: `d[k]` when `k in d`, else `none`. -/
def dget {κ : Type} [DecidableEq κ] (d : List (κ × List Char)) (k : κ) :
    Option (List Char) :=
  (d.find? (fun p => decide (p.1 = k))).map (fun p => p.2)

/-- One row of the destination (HubSpot) contacts export, with each cell
already rendered by Python `str(...)` (so a NaN cell reads `"nan"`). -/
structure HubContact where
  dhcId : List Char
  email : List Char
  recordId : List Char
deriving DecidableEq, Repr

/-- The guard of `process_contacts.py` line 93: both the stripped DHC ID and
the stripped Record ID must be truthy and not `'nan'`. -/
def dhcRowOk (row : HubContact) : Bool :=
  decide (pyStrip row.dhcId ≠ []) && decide (pyStrip row.dhcId ≠ s2l "nan") &&
  decide (pyStrip row.recordId ≠ []) && decide (pyStrip row.recordId ≠ s2l "nan")

/-- One destination row's effect on the DHC ID lookup
(`process_contacts.py` lines 90-97): qualifying rows insert
`int(float(dhc_id)) ↦ record_id`; a failed conversion is skipped. -/
def dhcStepIns (d : List (Int × List Char)) (row : HubContact) :
    List (Int × List Char) :=
  if dhcRowOk row then
    match pyIntOfFloatStr (pyStrip row.dhcId) with
    | some k => dinsert d k (pyStrip row.recordId)
    | none => d
  else d

/-- Lookup `dhc_to_record_id` built over the destination snapshot
(`process_contacts.py` lines 89-97). -/
def buildDhcLookup (hs : List HubContact) : List (Int × List Char) :=
  hs.foldl dhcStepIns []

/-- The guard of `process_contacts.py` line 116 on the normalized email. -/
def emailRowOk (row : HubContact) : Bool :=
  let e := pyLower (pyStrip row.email)
  decide (e ≠ []) && decide (e ≠ s2l "nan") && decide (e ≠ s2l "none") &&
  decide (pyStrip row.recordId ≠ []) && decide (pyStrip row.recordId ≠ s2l "nan")

/-- One destination row's effect on the email lookup
(`process_contacts.py` lines 113-117). -/
def emailStepIns (d : List (List Char × List Char)) (row : HubContact) :
    List (List Char × List Char) :=
  if emailRowOk row then dinsert d (pyLower (pyStrip row.email)) (pyStrip row.recordId)
  else d

/-- Lookup `email_to_record_id` built over the destination snapshot
(`process_contacts.py` lines 112-117). -/
def buildEmailLookup (hs : List HubContact) : List (List Char × List Char) :=
  hs.foldl emailStepIns []

/-- One source contact to resolve: the (deduplicated) DHC ID, `none` when
`pd.notna` fails, and the raw email cell. -/
structure SrcContact where
  dhcId : Option Int
  email : List Char
deriving DecidableEq, Repr

/-- The email fallback of `process_contacts.py` lines 122-128, applied to one
contact: normalize the email and look it up when it is truthy and not
`'nan'`/`'none'`. -/
def emailResolve (ed : List (List Char × List Char)) (c : SrcContact) : List Char :=
  let e := pyLower (pyStrip c.email)
  if e ≠ [] ∧ e ≠ s2l "nan" ∧ e ≠ s2l "none" then (dget ed e).getD []
  else []

/-- Per-contact resolution (`process_contacts.py` lines 101-128): the DHC ID
pass assigns the lookup hit, and the email pass runs only for rows whose
Record ID is still empty (`if not formatted_contacts.at[idx, 'Record ID']`). -/
def resolveContact (dd : List (Int × List Char))
    (ed : List (List Char × List Char)) (c : SrcContact) : List Char :=
  let r1 : List Char :=
    match c.dhcId with
    | some k => (dget dd k).getD []
    | none => []
  if r1 ≠ [] then r1 else emailResolve ed c

/-- Embedding of `match_contact_record_ids`: build both lookups from the destination
snapshot, then resolve every source contact. -/
def match_contact_record_ids (hs : List HubContact) (cs : List SrcContact) :
    List (List Char) :=
  cs.map (resolveContact (buildDhcLookup hs) (buildEmailLookup hs))

/-- The destination rows that actually put a mapping for key `k` into the
DHC ID lookup, in snapshot order. -/
def qualDhc (hs : List HubContact) (k : Int) : List HubContact :=
  hs.filter (fun row =>
    dhcRowOk row && decide (pyIntOfFloatStr (pyStrip row.dhcId) = some k))

/-- Facility-side resolution of `match_record_ids`
(`process_all_data_complete.py` lines 308-313): a plain guarded lookup,
`none` (NaN) or an absent key simply yields no match. -/
def matchFacilityRecordIds (lookup : List (Int × List Char))
    (cells : List (Option Int)) : List (List Char) :=
  cells.map (fun c =>
    match c with
    | some k => (dget lookup k).getD []
    | none => [])

/-- One iteration of the company-matching loop of `match_record_ids`
(`process_all_data_complete.py` lines 326-331): `dhc_id = int(row['DHC ID'])`
is not guarded, so a cell that is not an integer literal raises, modelled as
`Except.error`; a parsed key is looked up, an absent key leaves the Record ID
empty. -/
def companyStep (lookup : List (Int × List Char)) (cell : List Char) :
    Except (List Char) (List Char) :=
  match pyIntStrict cell with
  | none => Except.error (s2l "ValueError")
  | some k => Except.ok ((dget lookup k).getD [])

/-- Company-side resolution of `match_record_ids`: the loop over all company
rows, which aborts with the first raised `ValueError`. -/
def matchCompanyRecordIds (lookup : List (Int × List Char))
    (cells : List (List Char)) : Except (List Char) (List (List Char)) :=
  cells.mapM (companyStep lookup)

example :
    buildDhcLookup [⟨s2l "5", s2l "", s2l "111"⟩, ⟨s2l "5", s2l "", s2l "222"⟩] =
      [(5, s2l "222")] := by decide
example :
    matchCompanyRecordIds [] [s2l "abc"] = Except.error (s2l "ValueError") := by
  rfl

/-!
## Association Diff Engine
(`process_association_changes.py` lines 21-150,
`process_all_data_complete.py` lines 913-1168)
-/

/-- One association row as compared by `compare_associations`: Record ID,
Association ID (both already rendered as strings by `.astype(str)`) and the
Association Type column. -/
structure ARow where
  recId : List Char
  assocId : List Char
  aty : List Char
deriving DecidableEq, Repr

/-- The comparison key of `compare_associations` (lines 134-135):
`str(Record ID) + '|' + str(Association ID)`.  Note the Association Type
column is not part of the key. -/
def rowKey (r : ARow) : List Char := r.recId ++ '|' :: r.assocId

/-- Embedding of `compare_associations` (`process_association_changes.py` lines 129-150):
`to_remove` keeps the current rows whose key is not among the new keys,
`to_add` the new rows whose key is not among the current keys (the key-set
differences of lines 138-142 followed by the `isin` filters of
lines 145-146).  Returned in the source's `(to_remove, to_add)` order. -/
def compare_associations (current new : List ARow) : List ARow × List ARow :=
  let current_keys := current.map rowKey
  let new_keys := new.map rowKey
  (current.filter (fun r => decide (rowKey r ∉ new_keys)),
   new.filter (fun r => decide (rowKey r ∉ current_keys)))

/-- Embedding of `split_semicolon_associations` (`process_association_changes.py`
lines 21-41): per row, strip the packed cell, skip it when empty or `'nan'`,
split on `';'`, strip each entry, drop falsy entries, then keep entries that
are truthy and not `'nan'`, each paired with the row's Record ID.  The
Record ID passes through untouched, hence the type parameter. -/
def split_semicolon_associations {α : Type} (rows : List (α × List Char)) :
    List (α × List Char) :=
  rows.flatMap (fun row =>
    let associations := pyStrip row.2
    if associations ≠ [] ∧ associations ≠ s2l "nan" then
      (((((splitSemi associations).map pyStrip).filter
            (fun a => decide (a ≠ []))).filter
            (fun a => decide (a ≠ []) && decide (a ≠ s2l "nan"))).map
        (fun a => (row.1, a)))
    else [])

/-- Applying an association diff to the current destination edges: the rows
listed in `to_remove` are deleted and the rows listed in `to_add` are
appended. -/
def applyAssocDiff (current new : List ARow) : List ARow :=
  current.filter (fun r => decide (r ∉ (compare_associations current new).1)) ++
    (compare_associations current new).2

example :
    compare_associations
      [⟨s2l "1", s2l "2", s2l "T"⟩]
      [⟨s2l "1", s2l "2", s2l "T"⟩, ⟨s2l "1", s2l "3", s2l "T"⟩] =
      ([], [⟨s2l "1", s2l "3", s2l "T"⟩]) := by decide
example :
    split_semicolon_associations [((1 : Int), s2l " 5 ;; nan ;5 ")] =
      [(1, s2l "5"), (1, s2l "5")] := by decide

/-- One desired association row after Record ID matching
(`match_associations_with_record_ids`): the two endpoint Record IDs, `none`
for an empty / NaN cell. -/
structure RawAssoc where
  recId : Option Int
  assocId : Option Int
deriving DecidableEq, Repr

/-- The filter of `process_all_data_complete.py` lines 955-960: both endpoint
Record IDs present. -/
def hasIds (a : RawAssoc) : Bool := a.recId.isSome && a.assocId.isSome

/-- The `(Record ID, Association ID)` pair of a fully resolved row
(the `astype(int)` formatting of lines 1000-1004). -/
def rawPairs (l : List RawAssoc) : List (Int × Int) :=
  l.filterMap (fun a =>
    match a.recId, a.assocId with
    | some r, some c => some (r, c)
    | _, _ => none)

/-- One destination record carrying a packed multi-valued edge field:
its Record ID and the raw `Associated ... IDs` cell (`none` for NaN). -/
structure HubEdgeRec where
  recId : Option Int
  packed : Option (List Char)
deriving DecidableEq, Repr

/-- Expansion of one packed cell (`process_all_data_complete.py`
lines 977-989): split on `';'`, strip, drop empty entries, convert with
`pd.to_numeric(..., errors='coerce')` dropping the failures, truncate with
`astype(int)`. -/
def parsePackedCell (rid : Int) (p : List Char) : List (Int × Int) :=
  (((splitSemi p).map pyStrip).filter (fun s => decide (s ≠ []))).filterMap
    (fun s => (pyIntOfFloatStr s).map (fun a => (rid, a)))

/-- Current-edge extraction (`process_all_data_complete.py` lines 969-991):
records whose Record ID is present and whose packed cell is present and
non-empty contribute one edge per parsed entry. -/
def expandPacked (recs : List HubEdgeRec) : List (Int × Int) :=
  recs.flatMap (fun r =>
    match r.recId, r.packed with
    | some rid, some p => if p ≠ [] then parsePackedCell rid p else []
    | _, _ => [])

/-- Result of one per-relationship-type change computation: either typed
add/remove edge lists, or the `'TBD'` placeholder add file of
lines 1020-1026 (one placeholder row per desired association). -/
inductive FCResult where
  | changes (add remove : List (Int × Int)) : FCResult
  | placeholder (n : Nat) : FCResult
deriving DecidableEq, Repr

/-- Embedding of `process_facility_company_changes` (`process_all_data_complete.py`
lines 952-1028), with the desired rows and destination records embedded as
above: empty input short-circuits; with resolved desired rows the diff is the
pair of left-only merges of lines 1007-1014 when current edges exist, else
the add-only result of line 1016; with no resolved rows but a nonempty input
the `'TBD'` placeholder file is produced. -/
def process_facility_company_changes (fcAll : List RawAssoc)
    (hub : List HubEdgeRec) : FCResult :=
  if fcAll.isEmpty then FCResult.changes [] []
  else
    let existing := fcAll.filter hasIds
    let current := expandPacked hub
    if existing.isEmpty then FCResult.placeholder fcAll.length
    else
      let newF := rawPairs existing
      if current.isEmpty then FCResult.changes newF []
      else
        FCResult.changes
          (newF.filter (fun e => decide (e ∉ current)))
          (current.filter (fun e => decide (e ∉ newF)))

/-- Embedding of `process_contact_facility_changes` (`process_all_data_complete.py`
lines 1030-1106): structurally identical to the facility-company processor,
reading the `Associated Facility IDs` cell of the contacts export. -/
def process_contact_facility_changes (cfAll : List RawAssoc)
    (hub : List HubEdgeRec) : FCResult :=
  if cfAll.isEmpty then FCResult.changes [] []
  else
    let existing := cfAll.filter hasIds
    let current := expandPacked hub
    if existing.isEmpty then FCResult.placeholder cfAll.length
    else
      let newF := rawPairs existing
      if current.isEmpty then FCResult.changes newF []
      else
        FCResult.changes
          (newF.filter (fun e => decide (e ∉ current)))
          (current.filter (fun e => decide (e ∉ newF)))

/-- Embedding of `process_contact_company_changes` (`process_all_data_complete.py`
lines 1108-1168): no placeholder path; unresolved rows are dropped up front
and with no current edges the add side is the full resolved set. -/
def process_contact_company_changes (ccAll : List RawAssoc)
    (hub : List HubEdgeRec) : FCResult :=
  let newF := rawPairs (ccAll.filter hasIds)
  if newF.isEmpty then FCResult.changes [] []
  else
    let current := expandPacked hub
    if current.isEmpty then FCResult.changes newF []
    else
      FCResult.changes
        (newF.filter (fun e => decide (e ∉ current)))
        (current.filter (fun e => decide (e ∉ newF)))

/-- Outcome of `process_association_changes` (`process_all_data_complete.py`
lines 913-950): the `FileNotFoundError` handler of lines 918-923 logs and
falls back to `save_association_files`, which writes the three desired sets
as-is — a distinguished add-only mode — while the normal path runs the three
per-type processors (each skipped on an empty input frame). -/
inductive AssocOutcome where
  | addOnly (fc cf cc : List RawAssoc) : AssocOutcome
  | processed (fc cf cc : Option FCResult) : AssocOutcome
deriving DecidableEq, Repr

/-- Embedding of `process_association_changes`, with the destination exports present
together or absent (`none` models the caught `FileNotFoundError`).  The
contacts export carries two packed columns, so it appears as two
`HubEdgeRec` views: one per its `Associated Facility IDs` cells and one per
its `Associated Company IDs` cells. -/
def process_association_changes (fc cf cc : List RawAssoc)
    (hub : Option (List HubEdgeRec × List HubEdgeRec × List HubEdgeRec)) :
    AssocOutcome :=
  match hub with
  | none => AssocOutcome.addOnly fc cf cc
  | some (hubFacilities, hubContactsFacIds, hubContactsCompIds) =>
      AssocOutcome.processed
        (if fc.isEmpty then none
         else some (process_facility_company_changes fc hubFacilities))
        (if cf.isEmpty then none
         else some (process_contact_facility_changes cf hubContactsFacIds))
        (if cc.isEmpty then none
         else some (process_contact_company_changes cc hubContactsCompIds))

example :
    process_facility_company_changes [⟨some 1, some 2⟩]
      [⟨some 9, some (s2l "3;4")⟩] =
    FCResult.changes [(1, 2)] [(9, 3), (9, 4)] := by decide

/-! ### Helper lemmas -/

lemma ws_not_digit {c : Char} (h : c.isWhitespace = true) : c.isDigit = false := by
  simp [Char.isWhitespace] at h
  rcases h with ((h | h) | h) | h <;> subst h <;> decide

lemma ws_not_digit_contra {c : Char} (h : c.isDigit = true) :
    c.isWhitespace = false := by
  cases hw : c.isWhitespace
  · rfl
  · rw [ws_not_digit hw] at h
    simp at h

lemma dropWhile_head_false {p : Char → Bool} {l : List Char} {c : Char}
    {cs : List Char} (h : l.dropWhile p = c :: cs) : p c = false := by
  have h2 := List.head?_dropWhile_not p l
  rw [h] at h2
  simpa using h2

lemma dropWhile_idem (p : Char → Bool) (l : List Char) :
    (l.dropWhile p).dropWhile p = l.dropWhile p := by
  cases h : l.dropWhile p with
  | nil => simp
  | cons c cs => simp [List.dropWhile_cons, dropWhile_head_false h]

lemma filter_dropWhile {p q : Char → Bool} (hpq : ∀ x, q x = true → p x = false)
    (l : List Char) : (l.dropWhile q).filter p = l.filter p := by
  induction l with
  | nil => simp
  | cons c cs ih =>
    by_cases hq : q c = true
    · rw [List.dropWhile_cons]
      simp [hq, ih, List.filter_cons, hpq c hq]
    · rw [List.dropWhile_cons]
      simp [hq]

lemma stripTrailing_filter {p : Char → Bool}
    (hpq : ∀ x, x.isWhitespace = true → p x = false) (l : List Char) :
    (stripTrailing l).filter p = l.filter p := by
  unfold stripTrailing
  calc ((l.reverse.dropWhile Char.isWhitespace).reverse).filter p
      = ((l.reverse.dropWhile Char.isWhitespace).filter p).reverse :=
        List.filter_reverse p _
    _ = (l.reverse.filter p).reverse := by rw [filter_dropWhile hpq]
    _ = (l.filter p).reverse.reverse := by rw [List.filter_reverse]
    _ = l.filter p := by simp

lemma pyStrip_filter {p : Char → Bool}
    (hpq : ∀ x, x.isWhitespace = true → p x = false) (l : List Char) :
    (pyStrip l).filter p = l.filter p := by
  unfold pyStrip stripLeading
  rw [stripTrailing_filter hpq, filter_dropWhile hpq]

lemma stripTrailing_idem (l : List Char) :
    stripTrailing (stripTrailing l) = stripTrailing l := by
  unfold stripTrailing
  rw [List.reverse_reverse, dropWhile_idem]

lemma stripTrailing_head (l : List Char) :
    stripTrailing l = [] ∨ (stripTrailing l).head? = l.head? := by
  cases l with
  | nil => left; rfl
  | cons c cs =>
    unfold stripTrailing
    rw [List.reverse_cons, List.dropWhile_append]
    by_cases h : (cs.reverse.dropWhile Char.isWhitespace).isEmpty
    · rw [if_pos h]
      by_cases hc : Char.isWhitespace c
      · left; simp [List.dropWhile_cons, hc]
      · right; simp [List.dropWhile_cons, hc]
    · rw [if_neg h]
      right
      simp

lemma pyStrip_eq_self_of_ends (c x : Char) (mid : List Char)
    (hc : c.isWhitespace = false) (hx : x.isWhitespace = false) :
    pyStrip (c :: (mid ++ [x])) = c :: (mid ++ [x]) := by
  unfold pyStrip stripLeading stripTrailing
  rw [List.dropWhile_cons, hc]
  simp only [Bool.false_eq_true, if_false]
  have h1 : (c :: (mid ++ [x])).reverse = x :: (mid.reverse ++ [c]) := by simp
  rw [h1, List.dropWhile_cons, hx]
  simp

lemma pyStrip_idem (l : List Char) : pyStrip (pyStrip l) = pyStrip l := by
  unfold pyStrip
  have hsl : stripLeading (stripTrailing (stripLeading l)) =
      stripTrailing (stripLeading l) := by
    rcases stripTrailing_head (stripLeading l) with h | h
    · rw [h]; rfl
    · cases hst : stripTrailing (stripLeading l) with
      | nil => rfl
      | cons c cs =>
        rw [hst] at h
        cases hm : stripLeading l with
        | nil => rw [hm] at h; simp at h
        | cons d ds =>
          rw [hm] at h
          simp at h
          have hd : Char.isWhitespace d = false :=
            dropWhile_head_false (p := Char.isWhitespace) hm
          subst h
          simp [stripLeading, List.dropWhile_cons, hd]
  rw [hsl, stripTrailing_idem]

lemma fmt10_shape (d : List Char) (hlen : d.length = 10)
    (hall : ∀ x ∈ d, x.isDigit = true) :
    ∃ mid x, fmt10 d = '(' :: (mid ++ [x]) ∧ x.isWhitespace = false := by
  rcases List.eq_nil_or_concat (d.drop 6) with hc | ⟨L, x, hc⟩
  · exfalso
    have := congrArg List.length hc
    simp [hlen] at this
  · refine ⟨d.take 3 ++ ')' :: ' ' :: ((d.drop 3).take 3) ++ ['-'] ++ L, x, ?_, ?_⟩
    · rw [fmt10, hc]
      simp [List.concat_eq_append]
    · have hx : x ∈ d := by
        have : x ∈ d.drop 6 := by rw [hc]; simp [List.concat_eq_append]
        exact List.drop_subset _ _ this
      exact ws_not_digit_contra (hall x hx)

lemma fmt10_filter (d : List Char) (hall : ∀ x ∈ d, x.isDigit = true) :
    (fmt10 d).filter Char.isDigit = d := by
  have ha : (d.take 3).filter Char.isDigit = d.take 3 :=
    List.filter_eq_self.mpr fun x hx => hall x (List.take_subset _ _ hx)
  have hb : ((d.drop 3).take 3).filter Char.isDigit = (d.drop 3).take 3 :=
    List.filter_eq_self.mpr fun x hx =>
      hall x (List.drop_subset _ _ (List.take_subset _ _ hx))
  have hcf : (d.drop 6).filter Char.isDigit = d.drop 6 :=
    List.filter_eq_self.mpr fun x hx => hall x (List.drop_subset _ _ hx)
  have hsplit : d.take 3 ++ ((d.drop 3).take 3 ++ d.drop 6) = d := by
    have h1 : (d.drop 3).drop 3 = d.drop 6 := by rw [List.drop_drop]
    rw [← h1, List.take_append_drop, List.take_append_drop]
  calc (fmt10 d).filter Char.isDigit
      = d.take 3 ++ ((d.drop 3).take 3 ++ d.drop 6) := by
        rw [fmt10]
        simp [List.filter_append, List.filter_cons, ha, hb, hcf]
    _ = d := hsplit

lemma phone_fmt10_fixed (d : List Char) (hlen : d.length = 10)
    (hall : ∀ x ∈ d, x.isDigit = true) :
    format_phone_number (fmt10 d) = fmt10 d := by
  obtain ⟨mid, x, hshape, hx⟩ := fmt10_shape d hlen hall
  have hstrip : pyStrip (fmt10 d) = fmt10 d := by
    rw [hshape]
    exact pyStrip_eq_self_of_ends '(' x mid (by decide) hx
  have hne : fmt10 d ≠ [] := by rw [hshape]; simp
  have hfilter : (fmt10 d).filter Char.isDigit = d := fmt10_filter d hall
  simp only [format_phone_number, hstrip, hfilter]
  rw [if_neg hne, if_pos hlen]

lemma format_phone_number_idem (v : List Char) :
    format_phone_number (format_phone_number v) = format_phone_number v := by
  by_cases h0 : pyStrip v = []
  · have hv : format_phone_number v = [] := by
      simp only [format_phone_number]
      rw [if_pos h0]
    rw [hv]
    simp only [format_phone_number]
    rw [if_pos (by rfl)]
  · have hall : ∀ x ∈ v.filter Char.isDigit, x.isDigit = true :=
      fun x hx => (List.mem_filter.mp hx).2
    by_cases h10 : (v.filter Char.isDigit).length = 10
    · have hv : format_phone_number v = fmt10 (v.filter Char.isDigit) := by
        simp only [format_phone_number]
        rw [if_neg h0, if_pos h10]
      rw [hv, phone_fmt10_fixed _ h10 hall]
    · by_cases h11 : (v.filter Char.isDigit).length = 11 ∧
          (v.filter Char.isDigit).head? = some '1'
      · have hv : format_phone_number v = fmt10 ((v.filter Char.isDigit).drop 1) := by
          simp only [format_phone_number]
          rw [if_neg h0, if_neg h10, if_pos h11]
        rw [hv]
        apply phone_fmt10_fixed
        · rw [List.length_drop, h11.1]
        · exact fun x hx => hall x (List.drop_subset _ _ hx)
      · have hv : format_phone_number v = pyStrip v := by
          simp only [format_phone_number]
          rw [if_neg h0, if_neg h10, if_neg h11]
        rw [hv]
        have hf : (pyStrip v).filter Char.isDigit = v.filter Char.isDigit :=
          pyStrip_filter (fun _ hx => ws_not_digit hx) v
        simp only [format_phone_number, hf, pyStrip_idem]
        rw [if_neg h0, if_neg h10, if_neg h11]

lemma format_zip_code_idem (v : List Char) :
    format_zip_code (format_zip_code v) = format_zip_code v := by
  by_cases h0 : v = []
  · subst h0; rfl
  · by_cases h5 : 5 ≤ (v.filter Char.isDigit).length
    · have hzv : format_zip_code v = (v.filter Char.isDigit).take 5 := by
        simp only [format_zip_code]
        rw [if_neg h0, if_pos h5]
      rw [hzv]
      have hlen : ((v.filter Char.isDigit).take 5).length = 5 := by
        rw [List.length_take]
        omega
      have hzne : (v.filter Char.isDigit).take 5 ≠ [] := by
        intro h
        rw [h] at hlen
        simp at hlen
      have hzd : ((v.filter Char.isDigit).take 5).filter Char.isDigit =
          (v.filter Char.isDigit).take 5 :=
        List.filter_eq_self.mpr fun x hx =>
          (List.mem_filter.mp (List.take_subset _ _ hx)).2
      simp only [format_zip_code, hzd, hlen]
      rw [if_neg hzne, if_pos (by omega : 5 ≤ 5)]
      exact List.take_of_length_le (Nat.le_of_eq hlen)
    · have hzv : format_zip_code v =
          List.replicate (5 - (v.filter Char.isDigit).length) '0' ++
            v.filter Char.isDigit := by
        simp only [format_zip_code]
        rw [if_neg h0, if_neg h5]
      rw [hzv]
      have hlen : (List.replicate (5 - (v.filter Char.isDigit).length) '0' ++
          v.filter Char.isDigit).length = 5 := by
        simp only [List.length_append, List.length_replicate]
        omega
      have hzne : List.replicate (5 - (v.filter Char.isDigit).length) '0' ++
          v.filter Char.isDigit ≠ [] := by
        intro h
        rw [h] at hlen
        simp at hlen
      have hzd : (List.replicate (5 - (v.filter Char.isDigit).length) '0' ++
          v.filter Char.isDigit).filter Char.isDigit =
          List.replicate (5 - (v.filter Char.isDigit).length) '0' ++
            v.filter Char.isDigit :=
        List.filter_eq_self.mpr (by
          intro x hx
          rcases List.mem_append.mp hx with hx | hx
          · rw [List.eq_of_mem_replicate hx]; decide
          · exact (List.mem_filter.mp hx).2)
      simp only [format_zip_code, hzd, hlen]
      rw [if_neg hzne, if_pos (by omega : 5 ≤ 5)]
      exact List.take_of_length_le (Nat.le_of_eq hlen)

lemma find?_filter_ne {κ : Type} [DecidableEq κ] (d : List (κ × List Char))
    (k k' : κ) (h : k' ≠ k) :
    (d.filter (fun p => decide (p.1 ≠ k'))).find? (fun p => decide (p.1 = k)) =
      d.find? (fun p => decide (p.1 = k)) := by
  induction d with
  | nil => rfl
  | cons p rest ih =>
    by_cases hp : p.1 = k
    · have hp' : p.1 ≠ k' := by
        rw [hp]
        exact fun hh => h hh.symm
      rw [List.filter_cons, if_pos (by simpa using hp')]
      simp [List.find?, hp]
    · by_cases hp2 : p.1 = k'
      · rw [List.filter_cons, if_neg (by simpa using hp2)]
        rw [ih]
        simp [List.find?, hp]
      · rw [List.filter_cons, if_pos (by simpa using hp2)]
        have e1 : List.find? (fun p => decide (p.1 = k))
            (p :: rest.filter (fun p => decide (p.1 ≠ k'))) =
            List.find? (fun p => decide (p.1 = k))
              (rest.filter (fun p => decide (p.1 ≠ k'))) := by
          simp [List.find?, hp]
        rw [e1, ih]
        simp [List.find?, hp]

lemma dget_dinsert_self {κ : Type} [DecidableEq κ] (d : List (κ × List Char))
    (k : κ) (v : List Char) : dget (dinsert d k v) k = some v := by
  unfold dget dinsert
  rw [List.find?_append]
  have h1 : (d.filter fun p => decide (p.1 ≠ k)).find?
      (fun p => decide (p.1 = k)) = none := by
    rw [List.find?_eq_none]
    intro x hx
    have h2 := (List.mem_filter.mp hx).2
    simp at h2 ⊢
    exact h2
  rw [h1]
  simp [List.find?]

lemma dget_dinsert_ne {κ : Type} [DecidableEq κ] (d : List (κ × List Char))
    (k k' : κ) (v : List Char) (h : k' ≠ k) :
    dget (dinsert d k' v) k = dget d k := by
  unfold dget dinsert
  rw [List.find?_append, find?_filter_ne d k k' h]
  have h2 : List.find? (fun p => decide (p.1 = k)) [(k', v)] = none := by
    simp [List.find?, h]
  rw [h2]
  cases d.find? (fun p => decide (p.1 = k)) <;> rfl

lemma getLast?_cons_eq {α : Type} (x : α) (xs : List α) :
    (x :: xs).getLast? = some (xs.getLast?.getD x) := by
  cases xs <;> simp [List.getLast?_cons]

lemma mem_of_getLast?_eq {α : Type} {l : List α} {a : α}
    (h : l.getLast? = some a) : a ∈ l := by
  induction l with
  | nil => simp at h
  | cons x xs ih =>
    rw [getLast?_cons_eq] at h
    cases hx : xs.getLast? with
    | none =>
      rw [hx] at h
      simp at h
      simp [h]
    | some b =>
      rw [hx] at h
      simp at h
      exact List.mem_cons_of_mem _ (ih (by rw [hx, h]))

lemma dhcStepIns_qual {d : List (Int × List Char)} {row : HubContact} {k : Int}
    (hok : dhcRowOk row = true)
    (hp : pyIntOfFloatStr (pyStrip row.dhcId) = some k) :
    dhcStepIns d row = dinsert d k (pyStrip row.recordId) := by
  unfold dhcStepIns
  rw [if_pos hok, hp]

lemma dhcStepIns_notqual {d : List (Int × List Char)} {row : HubContact} {k : Int}
    (h : ¬(dhcRowOk row = true ∧ pyIntOfFloatStr (pyStrip row.dhcId) = some k)) :
    dget (dhcStepIns d row) k = dget d k := by
  unfold dhcStepIns
  by_cases hok : dhcRowOk row = true
  · rw [if_pos hok]
    cases hp : pyIntOfFloatStr (pyStrip row.dhcId) with
    | none => rfl
    | some k2 =>
      have hk2 : k2 ≠ k := by
        intro he
        exact h ⟨hok, by rw [hp, he]⟩
      exact dget_dinsert_ne d k k2 _ hk2
  · rw [if_neg hok]

lemma dget_foldl_dhcStep (hs : List HubContact) :
    ∀ (d : List (Int × List Char)) (k : Int),
      dget (hs.foldl dhcStepIns d) k =
        ((qualDhc hs k).getLast?.map (fun row => pyStrip row.recordId)).or
          (dget d k) := by
  induction hs with
  | nil =>
    intro d k
    simp [qualDhc]
  | cons row rest ih =>
    intro d k
    rw [List.foldl_cons, ih]
    by_cases hq : dhcRowOk row = true ∧
        pyIntOfFloatStr (pyStrip row.dhcId) = some k
    · have hqual : qualDhc (row :: rest) k = row :: qualDhc rest k := by
        unfold qualDhc
        rw [List.filter_cons, if_pos (by simp [hq.1, hq.2])]
      rw [hqual, getLast?_cons_eq]
      cases hrest : (qualDhc rest k).getLast? with
      | some y => simp
      | none =>
        rw [dhcStepIns_qual hq.1 hq.2, dget_dinsert_self]
        simp
    · have hqual : qualDhc (row :: rest) k = qualDhc rest k := by
        unfold qualDhc
        rw [List.filter_cons, if_neg (by simpa [Bool.and_eq_true] using hq)]
      rw [hqual, dhcStepIns_notqual hq]

lemma dget_buildDhc (hs : List HubContact) (k : Int) :
    dget (buildDhcLookup hs) k =
      (qualDhc hs k).getLast?.map (fun row => pyStrip row.recordId) := by
  unfold buildDhcLookup
  rw [dget_foldl_dhcStep hs [] k]
  have h0 : dget ([] : List (Int × List Char)) k = none := rfl
  rw [h0]
  cases (qualDhc hs k).getLast?.map (fun row => pyStrip row.recordId) <;> rfl

lemma buildDhc_val_ne_nil {hs : List HubContact} {k : Int} {r : List Char}
    (h : dget (buildDhcLookup hs) k = some r) : r ≠ [] := by
  rw [dget_buildDhc] at h
  cases hq : (qualDhc hs k).getLast? with
  | none =>
    rw [hq] at h
    simp at h
  | some row =>
    rw [hq] at h
    simp at h
    have hrow : row ∈ qualDhc hs k := mem_of_getLast?_eq hq
    have hok := (List.mem_filter.mp hrow).2
    rw [Bool.and_eq_true] at hok
    have h1 := hok.1
    unfold dhcRowOk at h1
    simp only [Bool.and_eq_true, decide_eq_true_eq] at h1
    rw [← h]
    exact h1.1.2

lemma classify_applyUpdate (rec : List FieldCmp) :
    classify (applyUpdate rec) = ChangeClass.unchanged := by
  unfold applyUpdate
  by_cases hc : classify rec = ChangeClass.update
  · rw [if_pos hc]
    unfold classify
    rw [if_neg ?_]
    intro hany
    rcases List.any_eq_true.mp hany with ⟨g, hg, hch⟩
    rcases List.mem_map.mp hg with ⟨f, _, rfl⟩
    simp [fieldChangedB] at hch
  · rw [if_neg hc]
    cases h2 : classify rec with
    | update => exact absurd h2 hc
    | unchanged => rfl

lemma compare_applyAssocDiff (current new : List ARow) :
    compare_associations (applyAssocDiff current new) new = ([], []) := by
  have hleft : ∀ r ∈ applyAssocDiff current new, rowKey r ∈ new.map rowKey := by
    intro r hr
    rcases List.mem_append.mp hr with hr | hr
    · have h1 := List.mem_filter.mp hr
      have h2 : r ∉ (compare_associations current new).1 := by
        simpa using h1.2
      have h3 : ¬(rowKey r ∉ new.map rowKey) := by
        intro hk
        exact h2 (List.mem_filter.mpr ⟨h1.1, by simpa using hk⟩)
      exact not_not.mp h3
    · exact List.mem_map_of_mem rowKey (List.mem_filter.mp hr).1
  have hright : ∀ d ∈ new, rowKey d ∈ (applyAssocDiff current new).map rowKey := by
    intro d hd
    by_cases hk : rowKey d ∈ current.map rowKey
    · rcases List.mem_map.mp hk with ⟨c, hc, hck⟩
      have hnotrm : c ∉ (compare_associations current new).1 := by
        intro hcrm
        have h2 := (List.mem_filter.mp hcrm).2
        simp only [decide_eq_true_eq] at h2
        exact h2 (hck ▸ List.mem_map_of_mem rowKey hd)
      have hca : c ∈ applyAssocDiff current new :=
        List.mem_append.mpr (Or.inl (List.mem_filter.mpr ⟨hc, by simpa using hnotrm⟩))
      exact hck ▸ List.mem_map_of_mem rowKey hca
    · have hda : d ∈ applyAssocDiff current new :=
        List.mem_append.mpr (Or.inr (List.mem_filter.mpr ⟨hd, by simpa using hk⟩))
      exact List.mem_map_of_mem rowKey hda
  unfold compare_associations
  refine Prod.ext ?_ ?_
  · simp only
    rw [List.filter_eq_nil_iff]
    intro r hr
    simp only [decide_eq_true_eq, Decidable.not_not]
    exact hleft r hr
  · simp only
    rw [List.filter_eq_nil_iff]
    intro d hd
    simp only [decide_eq_true_eq, Decidable.not_not]
    exact hright d hd

/-- Claim C1: once the pipeline's outputs have been applied to the
destination — every `update` record's compared destination values replaced by
the source values, every `to_add` edge appended and every `to_remove` edge
deleted — a re-run classifies no record as an update and both diff components
are empty, for every relationship type's edge lists. -/
theorem pipeline_idempotent_rerun :
    ∀ (recs : List (List FieldCmp)) (current new : List ARow),
      (recs.map applyUpdate).countP
          (fun r => decide (classify r = ChangeClass.update)) = 0 ∧
      compare_associations (applyAssocDiff current new) new = ([], []) := by
  intro recs current new
  refine ⟨?_, compare_applyAssocDiff current new⟩
  rw [List.countP_eq_zero]
  intro r hr
  rcases List.mem_map.mp hr with ⟨rec, _, rfl⟩
  simp [classify_applyUpdate]

/-- Claim C4: both sides of every compared field are normalized identically —
blank, `'nan'` and `'None'` all become the empty value, the numeric-like
fields additionally lose a trailing `".0"` on both sides — a field counts as
changed exactly when the two normalized strings differ, and a record is
classified `update` exactly when some compared field differs (`unchanged`
otherwise); in particular `Total Beds` `"120"` → `"130"` yields `update` with
changed-field set `{Total Beds}`. -/
theorem change_detector_normalization :
    (normalizeCell none = [] ∧ normalizeCell (some (s2l "nan")) = [] ∧
      normalizeCell (some (s2l "None")) = [] ∧
      normalizeCell (some (s2l "   ")) = []) ∧
    (∀ f : FieldCmp, fieldChangedB f = true ↔
      compNormFor f.name f.srcVal ≠ compNormFor f.name f.dstVal) ∧
    (∀ name : List Char, ∀ v : Option (List Char),
      fieldChangedB ⟨name, v, v⟩ = false) ∧
    compNormFor (s2l "Total Beds") (some (s2l "120.0")) =
      compNormFor (s2l "Total Beds") (some (s2l "120")) ∧
    (∀ rec : List FieldCmp,
      (classify rec = ChangeClass.update ↔
        ∃ f ∈ rec, compNormFor f.name f.srcVal ≠ compNormFor f.name f.dstVal) ∧
      (classify rec = ChangeClass.unchanged ↔
        ∀ f ∈ rec, compNormFor f.name f.srcVal = compNormFor f.name f.dstVal)) ∧
    (classify [⟨s2l "Total Beds", some (s2l "130"), some (s2l "120")⟩] =
        ChangeClass.update ∧
      changedFields [⟨s2l "Total Beds", some (s2l "130"), some (s2l "120")⟩] =
        [s2l "Total Beds"]) := by
  refine ⟨by decide, ?_, ?_, by decide, ?_, by decide⟩
  · intro f
    simp [fieldChangedB]
  · intro name v
    simp [fieldChangedB]
  · intro rec
    constructor
    · constructor
      · intro h
        unfold classify at h
        by_cases hany : rec.any fieldChangedB
        · rcases List.any_eq_true.mp hany with ⟨f, hf, hch⟩
          exact ⟨f, hf, by simpa [fieldChangedB] using hch⟩
        · rw [if_neg hany] at h
          cases h
      · rintro ⟨f, hf, hne⟩
        unfold classify
        rw [if_pos (List.any_eq_true.mpr ⟨f, hf, by simpa [fieldChangedB] using hne⟩)]
    · constructor
      · intro h f hf
        by_contra hne
        unfold classify at h
        rw [if_pos (List.any_eq_true.mpr
          ⟨f, hf, by simpa [fieldChangedB] using hne⟩)] at h
        cases h
      · intro hall
        unfold classify
        rw [if_neg ?_]
        intro hany
        rcases List.any_eq_true.mp hany with ⟨f, hf, hch⟩
        exact absurd (hall f hf) (by simpa [fieldChangedB] using hch)

/-- Claim C9: a compared field whose destination-side value is absent is
normalized to the empty string and still participates in the comparison — its
change mask is exactly "normalized source value nonempty", and a nonempty
source value makes the record an `update` with that field among the changed
fields; the field is never skipped. -/
theorem missing_destination_value_counts :
    ∀ (rec : List FieldCmp) (f : FieldCmp), f ∈ rec → f.dstVal = none →
      (fieldChangedB f = decide (compNormFor f.name f.srcVal ≠ [])) ∧
      (compNormFor f.name f.srcVal ≠ [] →
        classify rec = ChangeClass.update ∧ f.name ∈ changedFields rec) := by
  intro rec f hmem hdst
  have h1 : normalizeCell none = [] := by decide
  have hnone : compNormFor f.name f.dstVal = [] := by
    rw [hdst]
    unfold compNormFor
    by_cases hb : isNumericField f.name
    · rw [if_pos hb, h1]
      rfl
    · rw [if_neg hb, h1]
  constructor
  · unfold fieldChangedB
    rw [hnone]
  · intro hne
    have hch : fieldChangedB f = true := by
      simp [fieldChangedB, hnone]
      exact hne
    constructor
    · unfold classify
      rw [if_pos (List.any_eq_true.mpr ⟨f, hmem, hch⟩)]
    · exact List.mem_map_of_mem _ (List.mem_filter.mpr ⟨hmem, hch⟩)

/-- Claim C9 witness: a record whose only compared field has a nonempty
source value and an absent destination value is an `update` on that field. -/
theorem missing_destination_value_counts_witness :
    classify [⟨s2l "City", some (s2l "Boston"), none⟩] = ChangeClass.update ∧
      s2l "City" ∈ changedFields [⟨s2l "City", some (s2l "Boston"), none⟩] :=
  (missing_destination_value_counts
    [⟨s2l "City", some (s2l "Boston"), none⟩]
    ⟨s2l "City", some (s2l "Boston"), none⟩
    (by decide) rfl).2 (by decide)

/-- Claim C10 counterexample: the numeric-like comparison normalization is
not idempotent — it removes only one trailing `".0"`, so `"1.0.0"` normalizes
to `"1.0"`, which normalizes further to `"1"`. -/
theorem normalization_idem_counterexample :
    compNormFor (s2l "CCN")
        (some (compNormFor (s2l "CCN") (some (s2l "1.0.0")))) ≠
      compNormFor (s2l "CCN") (some (s2l "1.0.0")) := by decide

/-- Claim C10 (amended): the phone and zip-code normalizations are
idempotent, and comparing any value with itself after normalization is never
a change — in particular `"12345.0"` and `"12345"` compare equal for the
numeric-like `Total Beds` field; the numeric `".0"`-stripping normalization,
however, removes only one trailing `".0"` and is not idempotent. -/
theorem normalization_idem_amended :
    ∀ (v : List Char) (name : List Char),
      format_phone_number (format_phone_number v) = format_phone_number v ∧
      format_zip_code (format_zip_code v) = format_zip_code v ∧
      fieldChangedB ⟨name, some v, some v⟩ = false ∧
      fieldChangedB
        ⟨s2l "Total Beds", some (s2l "12345.0"), some (s2l "12345")⟩ = false :=
  fun v name =>
    ⟨format_phone_number_idem v, format_zip_code_idem v,
     by simp [fieldChangedB], by decide⟩

lemma append_pipe_inj : ∀ (a c b d : List Char), '|' ∉ a → '|' ∉ c →
    a ++ '|' :: b = c ++ '|' :: d → a = c ∧ b = d := by
  intro a
  induction a with
  | nil =>
    intro c b d _ hc h
    cases c with
    | nil =>
      simp at h
      exact ⟨rfl, h⟩
    | cons x cs =>
      simp at h
      exact absurd (h.1 ▸ List.mem_cons_self x cs) hc
  | cons x xs ih =>
    intro c b d ha hc h
    cases c with
    | nil =>
      simp at h
      exact absurd (h.1 ▸ List.mem_cons_self x xs) ha
    | cons y cs =>
      simp only [List.cons_append, List.cons.injEq] at h
      obtain ⟨hxy, h2⟩ := h
      have hr := ih cs b d (fun hm => ha (List.mem_cons_of_mem _ hm))
        (fun hm => hc (List.mem_cons_of_mem _ hm)) h2
      exact ⟨by rw [hxy, hr.1], hr.2⟩

lemma ARow_eq {a b : ARow} (h1 : a.recId = b.recId) (h2 : a.assocId = b.assocId)
    (h3 : a.aty = b.aty) : a = b := by
  cases a
  cases b
  simp_all

/-- Claim C2: on edge lists of one association type whose Record IDs contain
no `'|'` (as the stringified integer IDs of every call site do), the diff's
`to_add` is exactly the set difference desired minus current and `to_remove`
exactly current minus desired, under full-tuple equality; and no edge is ever
in both components of one diff. -/
theorem association_diff_correct :
    ∀ (t : List Char) (current new : List ARow),
      (∀ r ∈ current, '|' ∉ r.recId ∧ r.aty = t) →
      (∀ r ∈ new, '|' ∉ r.recId ∧ r.aty = t) →
      ∀ r : ARow,
        (r ∈ (compare_associations current new).2 ↔ r ∈ new ∧ r ∉ current) ∧
        (r ∈ (compare_associations current new).1 ↔ r ∈ current ∧ r ∉ new) ∧
        ¬(r ∈ (compare_associations current new).1 ∧
          r ∈ (compare_associations current new).2) := by
  intro t current new hcur hnew r
  have hkey : ∀ (l : List ARow), (∀ x ∈ l, '|' ∉ x.recId ∧ x.aty = t) →
      ∀ x : ARow, '|' ∉ x.recId → x.aty = t →
      (rowKey x ∈ l.map rowKey ↔ x ∈ l) := by
    intro l hl x hx1 hx2
    constructor
    · intro hm
      rcases List.mem_map.mp hm with ⟨c, hc, hck⟩
      obtain ⟨e1, e2⟩ := append_pipe_inj c.recId x.recId c.assocId x.assocId
        (hl c hc).1 hx1 hck
      have : c = x := ARow_eq e1 e2 (by rw [(hl c hc).2, hx2])
      exact this ▸ hc
    · intro hm
      exact List.mem_map_of_mem rowKey hm
  refine ⟨?_, ?_, ?_⟩
  · constructor
    · intro h
      have h1 := List.mem_filter.mp h
      refine ⟨h1.1, ?_⟩
      have h2 : rowKey r ∉ current.map rowKey := by simpa using h1.2
      intro hrc
      exact h2 (List.mem_map_of_mem rowKey hrc)
    · rintro ⟨h1, h2⟩
      refine List.mem_filter.mpr ⟨h1, ?_⟩
      simp only [decide_eq_true_eq]
      intro hm
      exact h2 ((hkey current hcur r (hnew r h1).1 (hnew r h1).2).mp hm)
  · constructor
    · intro h
      have h1 := List.mem_filter.mp h
      refine ⟨h1.1, ?_⟩
      have h2 : rowKey r ∉ new.map rowKey := by simpa using h1.2
      intro hrn
      exact h2 (List.mem_map_of_mem rowKey hrn)
    · rintro ⟨h1, h2⟩
      refine List.mem_filter.mpr ⟨h1, ?_⟩
      simp only [decide_eq_true_eq]
      intro hm
      exact h2 ((hkey new hnew r (hcur r h1).1 (hcur r h1).2).mp hm)
  · rintro ⟨h1, h2⟩
    have ha := List.mem_filter.mp h1
    have hb := List.mem_filter.mp h2
    have h3 : rowKey r ∉ current.map rowKey := by simpa using hb.2
    exact h3 (List.mem_map_of_mem rowKey ha.1)

/-- Claim C2 witness: with current edges `{(1,2)}` and desired edges
`{(1,2),(1,3)}` of one type, membership of `(1,3)` in `to_add` is exactly its
membership in the set difference. -/
theorem association_diff_correct_witness :
    ((⟨s2l "1", s2l "3", s2l "Facility-Company"⟩ : ARow) ∈
        (compare_associations
          [⟨s2l "1", s2l "2", s2l "Facility-Company"⟩]
          [⟨s2l "1", s2l "2", s2l "Facility-Company"⟩,
           ⟨s2l "1", s2l "3", s2l "Facility-Company"⟩]).2 ↔
      (⟨s2l "1", s2l "3", s2l "Facility-Company"⟩ : ARow) ∈
          [(⟨s2l "1", s2l "2", s2l "Facility-Company"⟩ : ARow),
           ⟨s2l "1", s2l "3", s2l "Facility-Company"⟩] ∧
        (⟨s2l "1", s2l "3", s2l "Facility-Company"⟩ : ARow) ∉
          [(⟨s2l "1", s2l "2", s2l "Facility-Company"⟩ : ARow)]) :=
  (association_diff_correct (s2l "Facility-Company")
    [⟨s2l "1", s2l "2", s2l "Facility-Company"⟩]
    [⟨s2l "1", s2l "2", s2l "Facility-Company"⟩,
     ⟨s2l "1", s2l "3", s2l "Facility-Company"⟩]
    (by decide) (by decide)
    ⟨s2l "1", s2l "3", s2l "Facility-Company"⟩).1

/-- Claim C8 counterexample: the packed-edge expansion does not deduplicate —
the packed cell `"5;5"` expands to two identical edges, not one edge per
distinct target. -/
theorem packed_expansion_counterexample :
    split_semicolon_associations [((1 : Int), s2l "5;5")] ≠
        [((1 : Int), s2l "5")] ∧
      split_semicolon_associations [((1 : Int), s2l "5;5")] =
        [((1 : Int), s2l "5"), ((1 : Int), s2l "5")] := by decide

/-- Claim C8 (amended): expansion discards blank and `'nan'` entries of a
packed cell but preserves duplicates, producing one edge per remaining entry
(`" 5 ;; nan ;5 "` expands to two copies of edge `(1,5)`); duplicates
collapse only in the diff's key-set membership tests, not in the expansion. -/
theorem packed_expansion_amended :
    (∀ (rows : List (Int × List Char)) (r : Int) (a : List Char),
        (r, a) ∈ split_semicolon_associations rows →
        a ≠ [] ∧ a ≠ s2l "nan") ∧
    split_semicolon_associations [((1 : Int), s2l " 5 ;; nan ;5 ")] =
      [((1 : Int), s2l "5"), ((1 : Int), s2l "5")] := by
  constructor
  · intro rows r a hmem
    unfold split_semicolon_associations at hmem
    rcases List.mem_flatMap.mp hmem with ⟨row, _, hin⟩
    by_cases hcond : pyStrip row.2 ≠ [] ∧ pyStrip row.2 ≠ s2l "nan"
    · rw [if_pos hcond] at hin
      rcases List.mem_map.mp hin with ⟨aid, haid, heq⟩
      have h2 := (List.mem_filter.mp haid).2
      simp only [Bool.and_eq_true, decide_eq_true_eq] at h2
      have ha : aid = a := congrArg Prod.snd heq
      exact ⟨ha ▸ h2.1, ha ▸ h2.2⟩
    · rw [if_neg hcond] at hin
      simp at hin
  · decide

/-- Claim C8 amended witness: the entry `"5"` surviving expansion of `"5;5"`
is nonblank and not `'nan'`. -/
theorem packed_expansion_amended_witness :
    s2l "5" ≠ [] ∧ s2l "5" ≠ s2l "nan" :=
  packed_expansion_amended.1 [((1 : Int), s2l "5;5")] 1 (s2l "5") (by decide)

/-- Claim C7: when the destination export files are missing the engine takes
the distinguished add-only outcome that carries the full desired sets
unchanged (never equal to a processed outcome), and when the destination
records yield no usable packed edge values the per-type diff has an empty
remove side and an add side equal to the full resolved desired set, for any
nonempty desired set. -/
theorem add_only_degradation :
    (∀ fc cf cc : List RawAssoc,
        process_association_changes fc cf cc none =
          AssocOutcome.addOnly fc cf cc) ∧
    (∀ (fc cf cc : List RawAssoc) (x y z : Option FCResult),
        AssocOutcome.addOnly fc cf cc ≠ AssocOutcome.processed x y z) ∧
    (∀ (fcAll : List RawAssoc) (hub : List HubEdgeRec),
        expandPacked hub = [] → fcAll.filter hasIds ≠ [] →
        process_facility_company_changes fcAll hub =
          FCResult.changes (rawPairs (fcAll.filter hasIds)) []) := by
  refine ⟨fun fc cf cc => rfl, ?_, ?_⟩
  · intro fc cf cc x y z h
    cases h
  intro fcAll hub hexp hne
  have h0 : fcAll ≠ [] := by
    intro h
    rw [h] at hne
    exact hne rfl
  simp only [process_facility_company_changes]
  rw [if_neg (by simpa [List.isEmpty_iff] using h0),
    if_neg (by simpa [List.isEmpty_iff] using hne),
    if_pos (by simpa [List.isEmpty_iff] using hexp)]

/-- Claim C7 witness: one resolved desired edge against a destination record
with no packed value yields add-only output. -/
theorem add_only_degradation_witness :
    process_facility_company_changes [⟨some 1, some 2⟩] [⟨some 9, none⟩] =
      FCResult.changes
        (rawPairs ([(⟨some 1, some 2⟩ : RawAssoc)].filter hasIds)) [] :=
  add_only_degradation.2.2 [⟨some 1, some 2⟩] [⟨some 9, none⟩]
    (by decide) (by decide)

/-- Claim C3: per contact, a DHC ID hit in the destination lookup is the
Record ID attached — the email strategy is not consulted, even when it would
hit a different destination record — and the email strategy is applied
exactly to the contacts the DHC ID strategy left unmatched; the result is a
single Record ID value. -/
theorem contact_strategy_priority :
    ∀ (hs : List HubContact) (c : SrcContact),
      (∀ k r, c.dhcId = some k → dget (buildDhcLookup hs) k = some r →
        resolveContact (buildDhcLookup hs) (buildEmailLookup hs) c = r) ∧
      ((∀ k, c.dhcId = some k → dget (buildDhcLookup hs) k = none) →
        resolveContact (buildDhcLookup hs) (buildEmailLookup hs) c =
          emailResolve (buildEmailLookup hs) c) := by
  intro hs c
  constructor
  · intro k r hk hget
    have hr : r ≠ [] := buildDhc_val_ne_nil hget
    simp only [resolveContact, hk, hget, Option.getD_some]
    rw [if_pos hr]
  · intro hnone
    cases hd : c.dhcId with
    | none =>
      simp only [resolveContact, hd]
      rw [if_neg (by simp)]
    | some k =>
      have hmiss := hnone k hd
      simp only [resolveContact, hd, hmiss]
      rw [if_neg (by simp)]

/-- Claim C3 witness: a contact whose DHC ID resolves to record `"100"` and
whose email would resolve to a different record `"200"` is attached `"100"`. -/
theorem contact_strategy_priority_witness :
    resolveContact
      (buildDhcLookup [⟨s2l "7", s2l "a@b.com", s2l "100"⟩,
        ⟨s2l "8", s2l "z@w.com", s2l "200"⟩])
      (buildEmailLookup [⟨s2l "7", s2l "a@b.com", s2l "100"⟩,
        ⟨s2l "8", s2l "z@w.com", s2l "200"⟩])
      ⟨some 7, s2l "z@w.com"⟩ = s2l "100" :=
  (contact_strategy_priority
    [⟨s2l "7", s2l "a@b.com", s2l "100"⟩, ⟨s2l "8", s2l "z@w.com", s2l "200"⟩]
    ⟨some 7, s2l "z@w.com"⟩).1 7 (s2l "100") rfl (by decide)

/-- Claim C5 counterexample: two destination rows sharing DHC ID `5` with
Record IDs `"111"` then `"222"` — the lookup deterministically holds the
last-seen mapping `"222"`, not the first-seen `"111"`, and no duplicate
count or warning exists in the computation. -/
theorem duplicate_key_counterexample :
    dget (buildDhcLookup
      [⟨s2l "5", s2l "first@x.com", s2l "111"⟩,
       ⟨s2l "5", s2l "second@x.com", s2l "222"⟩]) 5 = some (s2l "222") ∧
    (s2l "222" : List Char) ≠ s2l "111" := by
  constructor
  · decide
  · decide

/-- Claim C5 (amended): on duplicate destination natural keys the resolver
deterministically picks the last-seen qualifying mapping in snapshot order —
Python dict assignment overwrites — and the ambiguity is absorbed silently,
with no count or warning surfaced. -/
theorem duplicate_key_last_seen :
    ∀ (hs : List HubContact) (k : Int),
      dget (buildDhcLookup hs) k =
        (qualDhc hs k).getLast?.map (fun row => pyStrip row.recordId) :=
  fun hs k => dget_buildDhc hs k

lemma matchCompany_cons (lookup : List (Int × List Char)) (cell : List Char)
    (rest : List (List Char)) :
    matchCompanyRecordIds lookup (cell :: rest) =
      match companyStep lookup cell with
      | Except.error e => Except.error e
      | Except.ok b =>
        match matchCompanyRecordIds lookup rest with
        | Except.error e => Except.error e
        | Except.ok bs => Except.ok (b :: bs) := by
  unfold matchCompanyRecordIds
  rw [List.mapM_cons]
  cases companyStep lookup cell <;>
    cases List.mapM (companyStep lookup) rest <;> rfl

lemma matchCompany_ok_iff :
    ∀ (lookup : List (Int × List Char)) (cells : List (List Char)),
      (∃ out, matchCompanyRecordIds lookup cells = Except.ok out) ↔
        ∀ cell ∈ cells, (pyIntStrict cell).isSome = true := by
  intro lookup cells
  induction cells with
  | nil =>
    constructor
    · intro _ cell h
      exact absurd h (List.not_mem_nil cell)
    · intro _
      exact ⟨[], rfl⟩
  | cons cell rest ih =>
    constructor
    · rintro ⟨out, hout⟩
      rw [matchCompany_cons] at hout
      intro c hc
      cases hp : pyIntStrict cell with
      | none =>
        have hstep : companyStep lookup cell = Except.error (s2l "ValueError") := by
          unfold companyStep
          rw [hp]
        rw [hstep] at hout
        simp at hout
      | some k =>
        have hstep : companyStep lookup cell =
            Except.ok ((dget lookup k).getD []) := by
          unfold companyStep
          rw [hp]
        rw [hstep] at hout
        rcases List.mem_cons.mp hc with hceq | hcr
        · rw [hceq, hp]
          rfl
        · cases hrest : matchCompanyRecordIds lookup rest with
          | error e =>
            rw [hrest] at hout
            simp at hout
          | ok bs => exact (ih.mp ⟨bs, hrest⟩) c hcr
    · intro hall
      have h1 : (pyIntStrict cell).isSome = true :=
        hall cell (List.mem_cons_self _ _)
      rcases Option.isSome_iff_exists.mp h1 with ⟨k, hk⟩
      have hstep : companyStep lookup cell =
          Except.ok ((dget lookup k).getD []) := by
        unfold companyStep
        rw [hk]
      rcases ih.mpr (fun c hc => hall c (List.mem_cons_of_mem _ hc)) with ⟨bs, hbs⟩
      exact ⟨(dget lookup k).getD [] :: bs, by rw [matchCompany_cons, hstep, hbs]⟩

/-- Claim C6 counterexample: a company entity whose DHC ID cell is the
non-numeric string `"abc"` makes `match_record_ids` raise a `ValueError`
instead of treating the key as non-matching — resolution is not total. -/
theorem malformed_company_key_raises :
    matchCompanyRecordIds [] [s2l "abc"] = Except.error (s2l "ValueError") := rfl

/-- Claim C6 (amended): resolution is total and never raises for
destination-index construction (a mapping exists only for rows whose key
converted cleanly; malformed rows are skipped) and for the facility strategy
(every entity gets a result, a missing key is simply no match) — but the
company matching converts the source key with an unguarded `int()` and
succeeds exactly when every company key cell is an integer literal, raising
otherwise. -/
theorem resolution_totality_amended :
    (∀ (hs : List HubContact) (k : Int) (r : List Char),
        dget (buildDhcLookup hs) k = some r →
        ∃ row ∈ hs, dhcRowOk row = true ∧
          pyIntOfFloatStr (pyStrip row.dhcId) = some k ∧
          r = pyStrip row.recordId) ∧
    (∀ (lookup : List (Int × List Char)) (cells : List (Option Int)),
        (matchFacilityRecordIds lookup cells).length = cells.length ∧
        matchFacilityRecordIds lookup (none :: cells) =
          [] :: matchFacilityRecordIds lookup cells) ∧
    (∀ (lookup : List (Int × List Char)) (cells : List (List Char)),
        (∃ out, matchCompanyRecordIds lookup cells = Except.ok out) ↔
          ∀ cell ∈ cells, (pyIntStrict cell).isSome = true) := by
  refine ⟨?_, ?_, matchCompany_ok_iff⟩
  · intro hs k r h
    rw [dget_buildDhc] at h
    cases hq : (qualDhc hs k).getLast? with
    | none =>
      rw [hq] at h
      simp at h
    | some row =>
      rw [hq] at h
      simp at h
      have hrow : row ∈ qualDhc hs k := mem_of_getLast?_eq hq
      have hmem := List.mem_filter.mp hrow
      have hok := hmem.2
      rw [Bool.and_eq_true] at hok
      exact ⟨row, hmem.1, hok.1, by simpa using hok.2, h.symm⟩
  · intro lookup cells
    exact ⟨by simp [matchFacilityRecordIds], rfl⟩

/-- Claim C6 amended witness: the mapping `5 ↦ "111"` in a concrete
destination index is traced back to its qualifying, cleanly-converted row. -/
theorem resolution_totality_amended_witness :
    ∃ row ∈ [(⟨s2l "5", s2l "e@x.com", s2l "111"⟩ : HubContact)],
      dhcRowOk row = true ∧
        pyIntOfFloatStr (pyStrip row.dhcId) = some 5 ∧
        s2l "111" = pyStrip row.recordId :=
  resolution_totality_amended.1 [⟨s2l "5", s2l "e@x.com", s2l "111"⟩] 5
    (s2l "111") (by decide)
